import Mathlib

/-!
Portfolio Tracker: position aggregation and valuation engine.

Shallow embedding of the computational core of `src/js/app.js`:
the currency converter (`convertToEUR`), the position aggregator
(`calculatePositions`), the open/closed classification and the valuation
formulas performed in `init`, together with the empty-input error branch.

JavaScript numbers are modelled as exact rationals (`ℚ`); the optional
`totalCosts` field of a transaction is an `Option ℚ` and the `|| 0`
default is taken at lot-creation time, as in the source.  The mutable
`positionsByTicker` object is modelled as an insertion-ordered association
list of `Position` records (JavaScript object keys preserve insertion
order); the live price table and the exchange-rate table become explicit
parameters of the valuation stage.
-/

set_option autoImplicit false

namespace PortfolioTracker

/-- A raw transaction, as read from `data/transactions.json`
(fields used by the engine; `totalCosts` is optional in the source). -/
structure Tx where
  yahooTicker : String
  name : String
  type : String
  quantity : ℚ
  pricePerShare : ℚ
  localCurrency : String
  eurValue : ℚ
  totalCosts : Option ℚ
  totalEur : ℚ
  deriving Repr, DecidableEq

/-- A lot pushed onto `position.buys` / `position.sells` in
`calculatePositions`; `totalCosts` is already defaulted (`tx.totalCosts || 0`). -/
structure Lot where
  quantity : ℚ
  pricePerShare : ℚ
  localCurrency : String
  eurValue : ℚ
  totalCosts : ℚ
  totalEur : ℚ
  deriving Repr, DecidableEq

/-- The per-ticker position record built by `calculatePositions`. -/
structure Position where
  ticker : String
  name : String
  localCurrency : String
  buys : List Lot
  sells : List Lot
  currentQuantity : ℚ
  deriving Repr, DecidableEq

/-- The lot built from a transaction (the object literal pushed in
`calculatePositions`); `tx.totalCosts || 0` defaults a missing field to 0. -/
def mkLot (tx : Tx) : Lot :=
  { quantity := tx.quantity
    pricePerShare := tx.pricePerShare
    localCurrency := tx.localCurrency
    eurValue := tx.eurValue
    totalCosts := tx.totalCosts.getD 0
    totalEur := tx.totalEur }

/-- The fresh position created on first sight of a ticker
(`positionsByTicker[ticker] = { ..., buys: [], sells: [], currentQuantity: 0 }`). -/
def newPosition (tx : Tx) : Position :=
  { ticker := tx.yahooTicker
    name := tx.name
    localCurrency := tx.localCurrency
    buys := []
    sells := []
    currentQuantity := 0 }

/-- The effect of one transaction on its position: `buy` appends a lot to
`buys` and adds the quantity, `sell` appends to `sells` and subtracts,
any other `type` leaves the position untouched. -/
def applyTx (pos : Position) (tx : Tx) : Position :=
  if tx.type = "buy" then
    { pos with buys := pos.buys ++ [mkLot tx],
               currentQuantity := pos.currentQuantity + tx.quantity }
  else if tx.type = "sell" then
    { pos with sells := pos.sells ++ [mkLot tx],
               currentQuantity := pos.currentQuantity - tx.quantity }
  else
    pos

/-- One step of the `forEach` loop of `calculatePositions`: look up the
transaction's ticker in the insertion-ordered position list, updating it in
place, or create the position at the end when the ticker is new. -/
def insertTx : List Position → Tx → List Position
  | [], tx => [applyTx (newPosition tx) tx]
  | p :: ps, tx =>
      if p.ticker = tx.yahooTicker then applyTx p tx :: ps
      else p :: insertTx ps tx

/-- `calculatePositions`: fold the transaction sequence into the
insertion-ordered list of per-ticker positions. -/
def calculatePositions (txs : List Tx) : List Position :=
  txs.foldl insertTx []

/-- First position with the given ticker (object-key lookup). -/
def findPos (ps : List Position) (t : String) : Option Position :=
  ps.find? (fun p => p.ticker = t)

/-- Observed running quantity of a ticker (0 when the ticker has no position). -/
def qtyOf (ps : List Position) (t : String) : ℚ :=
  ((findPos ps t).map Position.currentQuantity).getD 0

/-- Observed buy-lot sequence of a ticker ([] when the ticker has no position). -/
def buysOf (ps : List Position) (t : String) : List Lot :=
  ((findPos ps t).map Position.buys).getD []

/-- Observed sell-lot sequence of a ticker ([] when the ticker has no position). -/
def sellsOf (ps : List Position) (t : String) : List Lot :=
  ((findPos ps t).map Position.sells).getD []

/-- Open classification used in `init`: `pos.currentQuantity > 0`. -/
def isOpen (p : Position) : Bool :=
  decide (0 < p.currentQuantity)

/-- Closed classification used in `init`: quantity not positive
and `pos.sells.length > 0` (the `else if` branch). -/
def isClosed (p : Position) : Bool :=
  !decide (0 < p.currentQuantity) && decide (0 < p.sells.length)

/-- The open output of `init`'s classification loop. -/
def openPositions (ps : List Position) : List Position :=
  ps.filter isOpen

/-- The closed output of `init`'s classification loop. -/
def closedPositions (ps : List Position) : List Position :=
  ps.filter isClosed

/-! Currency converter -/

/-- A rate table, as built by `fetchExchangeRates`: currency code to
EUR conversion factor. -/
abbrev Rates : Type := List (String × ℚ)

/-- JavaScript truthy lookup `rates.C || fallback`: a missing, zero
(or JS-falsy) entry yields the fallback. -/
def rateOr (rates : Rates) (c : String) (fallback : ℚ) : ℚ :=
  match List.lookup c rates with
  | some r => if r = 0 then fallback else r
  | none => fallback

/-- JavaScript `String.prototype.toUpperCase()` on the currency codes in
play (ASCII): uppercase every character. -/
def jsToUpperCase (s : String) : String :=
  String.mk (s.data.map Char.toUpper)

/-- `convertToEUR(price, localCurrency, rates)` from `src/js/app.js`:
null price propagates; the exact string `GBX` (pence) is divided by 100
and converted at `rates.GBP || 1.17`; otherwise the code is uppercased,
`EUR` is returned unchanged, a truthy rate multiplies, and a missing or
zero rate returns the price unconverted (with a console warning). -/
def convertToEUR (price : Option ℚ) (localCurrency : String) (rates : Rates) :
    Option ℚ :=
  match price with
  | none => none
  | some p =>
    if localCurrency = "GBX" then
      some ((p / 100) * rateOr rates "GBP" (117 / 100))
    else
      let currency := jsToUpperCase localCurrency
      if currency = "EUR" then some p
      else
        match List.lookup currency rates with
        | some rate => if rate = 0 then some p else some (p * rate)
        | none => some p

/-- `getCurrencyFromTicker`: suffix convention on the Yahoo ticker,
defaulting to USD. -/
def getCurrencyFromTicker (ticker : String) : String :=
  if ticker.endsWith ".L" then "GBX"
  else if ticker.endsWith ".AS" then "EUR"
  else if ticker.endsWith ".DE" then "EUR"
  else if ticker.endsWith ".ST" then "SEK"
  else if ticker.endsWith ".WA" then "PLN"
  else "USD"

/-! Valuation engine -/

/-- `calculateAvgBuyPrice`: cost-inclusive average over buy lots
(`totalEur / quantity`), 0 on no buys or non-positive total quantity. -/
def calculateAvgBuyPrice (buys : List Lot) : ℚ :=
  if buys.length = 0 then 0
  else
    let totalCost := (buys.map Lot.totalEur).sum
    let totalQuantity := (buys.map Lot.quantity).sum
    if 0 < totalQuantity then totalCost / totalQuantity else 0

/-- `calculateAvgSellPrice`: pre-cost average over sell lots
(`eurValue / quantity`), 0 on no sells or non-positive total quantity. -/
def calculateAvgSellPrice (sells : List Lot) : ℚ :=
  if sells.length = 0 then 0
  else
    let totalValue := (sells.map Lot.eurValue).sum
    let totalQuantity := (sells.map Lot.quantity).sum
    if 0 < totalQuantity then totalValue / totalQuantity else 0

/-- `calculateTotalCosts`: sum of `totalCosts` over buys and sells. -/
def calculateTotalCosts (buys sells : List Lot) : ℚ :=
  (buys.map Lot.totalCosts).sum + (sells.map Lot.totalCosts).sum

/-- The open-position valuation record built in `init` (nullable fields are
`Option`; `portfolioPercent` is filled by a second pass). -/
structure OpenData where
  ticker : String
  name : String
  quantity : ℚ
  avgBuyPrice : ℚ
  currentPriceEUR : Option ℚ
  currentValue : Option ℚ
  pl : Option ℚ
  plPercent : Option ℚ
  portfolioPercent : Option ℚ
  deriving Repr, DecidableEq

/-- The closed-position valuation record built in `init`. -/
structure ClosedData where
  ticker : String
  name : String
  quantityTraded : ℚ
  avgBuyPrice : ℚ
  avgSellPrice : ℚ
  totalCosts : ℚ
  realizedPL : ℚ
  deriving Repr, DecidableEq

/-- `invested` for a position as computed in `init`:
`avgBuyPrice * currentQuantity`. -/
def investedOf (pos : Position) : ℚ :=
  calculateAvgBuyPrice pos.buys * pos.currentQuantity

/-- Per-position body of the `openPositions.map` in `init`
(before the `portfolioPercent` pass, which is left `none` here).
`stockPrices` is the price table built from the `fetchYahooPrice` fan-out. -/
def openValuation (stockPrices : String → Option ℚ) (rates : Rates)
    (pos : Position) : OpenData :=
  let avgBuyPrice := calculateAvgBuyPrice pos.buys
  let localCurrency := getCurrencyFromTicker pos.ticker
  let currentLocalPrice := stockPrices pos.ticker
  let currentPriceEUR := convertToEUR currentLocalPrice localCurrency rates
  let invested := avgBuyPrice * pos.currentQuantity
  let currentValue :=
    match currentPriceEUR with
    | some c => some (c * pos.currentQuantity)
    | none => none
  let pl :=
    match currentValue with
    | some cv => some (cv - invested)
    | none => none
  let plPercent :=
    match pl with
    | some plv => if 0 < invested then some ((plv / invested) * 100) else none
    | none => none
  { ticker := pos.ticker
    name := pos.name
    quantity := pos.currentQuantity
    avgBuyPrice := avgBuyPrice
    currentPriceEUR := currentPriceEUR
    currentValue := currentValue
    pl := pl
    plPercent := plPercent
    portfolioPercent := none }

/-- `totalPortfolioValue`: sum of the known `currentValue`s of the open
records (accumulated during the first pass in `init`). -/
def totalPortfolioValue (ds : List OpenData) : ℚ :=
  (ds.map (fun d => (d.currentValue).getD 0)).sum

/-- The second pass in `init`: fill `portfolioPercent` from the total. -/
def fillPortfolioPercent (ds : List OpenData) : List OpenData :=
  let total := totalPortfolioValue ds
  ds.map (fun d =>
    { d with portfolioPercent :=
        match d.currentValue with
        | some cv => if 0 < total then some ((cv / total) * 100) else none
        | none => none })

/-- Per-position body of the `closedPositions.map` in `init`. -/
def closedValuation (pos : Position) : ClosedData :=
  let avgBuyPrice := calculateAvgBuyPrice pos.buys
  let avgSellPrice := calculateAvgSellPrice pos.sells
  let totalQtySold := (pos.sells.map Lot.quantity).sum
  let totalCosts := calculateTotalCosts pos.buys pos.sells
  let sellCosts := (pos.sells.map Lot.totalCosts).sum
  { ticker := pos.ticker
    name := pos.name
    quantityTraded := totalQtySold
    avgBuyPrice := avgBuyPrice
    avgSellPrice := avgSellPrice
    totalCosts := totalCosts
    realizedPL := (avgSellPrice - avgBuyPrice) * totalQtySold - sellCosts }

/-- The pure pipeline of `init` after the external fetches are turned into
parameters: an empty transaction list throws `No transactions found`
(caught as the error row); otherwise aggregation, classification and the
two valuation passes run and produce the open and closed records. -/
def pipeline (stockPrices : String → Option ℚ) (rates : Rates)
    (txs : List Tx) : Except String (List OpenData × List ClosedData) :=
  if txs.length = 0 then
    .error "No transactions found"
  else
    let positions := calculatePositions txs
    let opens := openPositions positions
    let closeds := closedPositions positions
    let openData := fillPortfolioPercent (opens.map (openValuation stockPrices rates))
    let closedData := closeds.map closedValuation
    .ok (openData, closedData)

/-! Specification-side sums over the raw transaction sequence -/

/-- Quantity contribution of one transaction to one ticker:
`+quantity` for a buy, `−quantity` for a sell, 0 otherwise. -/
def txDelta (tx : Tx) (t : String) : ℚ :=
  if tx.yahooTicker = t then
    if tx.type = "buy" then tx.quantity
    else if tx.type = "sell" then -tx.quantity
    else 0
  else 0

/-- Net signed quantity of a ticker over a transaction sequence. -/
def netDelta (txs : List Tx) (t : String) : ℚ :=
  (txs.map (fun tx => txDelta tx t)).sum

/-- Sum of buy quantities of a ticker over a transaction sequence. -/
def buyQtySum (txs : List Tx) (t : String) : ℚ :=
  ((txs.filter (fun tx => tx.yahooTicker = t ∧ tx.type = "buy")).map Tx.quantity).sum

/-- Sum of sell quantities of a ticker over a transaction sequence. -/
def sellQtySum (txs : List Tx) (t : String) : ℚ :=
  ((txs.filter (fun tx => tx.yahooTicker = t ∧ tx.type = "sell")).map Tx.quantity).sum

/-- The buy lots a transaction sequence contributes to a ticker. -/
def buyLots (txs : List Tx) (t : String) : List Lot :=
  (txs.filter (fun tx => tx.yahooTicker = t ∧ tx.type = "buy")).map mkLot

/-- The sell lots a transaction sequence contributes to a ticker. -/
def sellLots (txs : List Tx) (t : String) : List Lot :=
  (txs.filter (fun tx => tx.yahooTicker = t ∧ tx.type = "sell")).map mkLot

/-! Concrete transactions used in the worked examples -/

/-- Example buy of ticker AAA: quantity 10, `totalEur` 1020. -/
def buyAAA : Tx :=
  { yahooTicker := "AAA"
    name := "AAA Corp"
    type := "buy"
    quantity := 10
    pricePerShare := 100
    localCurrency := "EUR"
    eurValue := 1018
    totalCosts := some 2
    totalEur := 1020 }

/-- Example sell of ticker AAA: quantity 10, `eurValue` 480, `totalCosts` 2. -/
def sellAAA : Tx :=
  { yahooTicker := "AAA"
    name := "AAA Corp"
    type := "sell"
    quantity := 10
    pricePerShare := 50
    localCurrency := "EUR"
    eurValue := 480
    totalCosts := some 2
    totalEur := 478 }

/-- Example transaction of ticker AAA whose kind is neither buy nor sell. -/
def dividendAAA : Tx :=
  { yahooTicker := "AAA"
    name := "AAA Corp"
    type := "dividend"
    quantity := 1
    pricePerShare := 0
    localCurrency := "EUR"
    eurValue := 3
    totalCosts := some 0
    totalEur := 3 }

/-! Aggregation lemmas -/

lemma ticker_applyTx (pos : Position) (tx : Tx) :
    (applyTx pos tx).ticker = pos.ticker := by
  unfold applyTx
  split <;> [rfl; skip]
  split <;> rfl

lemma currentQuantity_applyTx (pos : Position) (tx : Tx) :
    (applyTx pos tx).currentQuantity =
      pos.currentQuantity +
        (if tx.type = "buy" then tx.quantity
         else if tx.type = "sell" then -tx.quantity else 0) := by
  unfold applyTx
  split
  · simp
  · split <;> simp [sub_eq_add_neg]

lemma buys_applyTx (pos : Position) (tx : Tx) :
    (applyTx pos tx).buys =
      pos.buys ++ (if tx.type = "buy" then [mkLot tx] else []) := by
  by_cases hb : tx.type = "buy"
  · simp [applyTx, hb]
  · by_cases hs : tx.type = "sell" <;> simp [applyTx, hb, hs]

lemma sells_applyTx (pos : Position) (tx : Tx) :
    (applyTx pos tx).sells =
      pos.sells ++ (if tx.type = "sell" then [mkLot tx] else []) := by
  by_cases hb : tx.type = "buy"
  · have : ¬ tx.type = "sell" := by simp [hb]
    simp [applyTx, hb, this]
  · by_cases hs : tx.type = "sell" <;> simp [applyTx, hb, hs]

lemma findPos_insertTx_self (ps : List Position) (tx : Tx) :
    findPos (insertTx ps tx) tx.yahooTicker =
      some (applyTx ((findPos ps tx.yahooTicker).getD (newPosition tx)) tx) := by
  induction ps with
  | nil =>
      simp [insertTx, findPos, List.find?, ticker_applyTx, newPosition]
  | cons p ps ih =>
      by_cases h : p.ticker = tx.yahooTicker
      · simp [insertTx, h, findPos, List.find?, ticker_applyTx]
      · simp [insertTx, h, findPos, List.find?] at ih ⊢
        simpa [Ne.symm h] using ih

lemma findPos_insertTx_ne (ps : List Position) (tx : Tx) (t : String)
    (h : t ≠ tx.yahooTicker) :
    findPos (insertTx ps tx) t = findPos ps t := by
  induction ps with
  | nil =>
      simp [insertTx, findPos, List.find?, ticker_applyTx, newPosition, Ne.symm h]
  | cons p ps ih =>
      by_cases hp : p.ticker = tx.yahooTicker
      · have hpt : ¬ p.ticker = t := fun hc => h (hc ▸ hp)
        simp [insertTx, hp, findPos, List.find?, ticker_applyTx, hpt, Ne.symm h]
      · simp only [insertTx, hp, if_neg, ite_false]
        by_cases hpt : p.ticker = t
        · simp [findPos, List.find?, hpt]
        · simp only [findPos, List.find?, decide_eq_false hpt] at ih ⊢
          simpa [hpt] using ih

lemma qtyOf_insertTx (ps : List Position) (tx : Tx) (t : String) :
    qtyOf (insertTx ps tx) t = qtyOf ps t + txDelta tx t := by
  by_cases h : t = tx.yahooTicker
  · subst h
    rw [qtyOf, findPos_insertTx_self]
    cases hf : findPos ps tx.yahooTicker with
    | none => simp [qtyOf, hf, currentQuantity_applyTx, txDelta, newPosition]
    | some p => simp [qtyOf, hf, currentQuantity_applyTx, txDelta]
  · rw [qtyOf, findPos_insertTx_ne ps tx t h, txDelta, if_neg (fun hc => h hc.symm)]
    simp [qtyOf]

lemma buysOf_insertTx (ps : List Position) (tx : Tx) (t : String) :
    buysOf (insertTx ps tx) t =
      buysOf ps t ++
        (if tx.yahooTicker = t ∧ tx.type = "buy" then [mkLot tx] else []) := by
  by_cases h : t = tx.yahooTicker
  · subst h
    rw [buysOf, findPos_insertTx_self]
    cases hf : findPos ps tx.yahooTicker with
    | none => simp [buysOf, hf, buys_applyTx, newPosition]
    | some p => simp [buysOf, hf, buys_applyTx]
  · have h' : ¬ (tx.yahooTicker = t ∧ tx.type = "buy") := fun hc => h hc.1.symm
    rw [buysOf, findPos_insertTx_ne ps tx t h]
    simp [buysOf, h']

lemma sellsOf_insertTx (ps : List Position) (tx : Tx) (t : String) :
    sellsOf (insertTx ps tx) t =
      sellsOf ps t ++
        (if tx.yahooTicker = t ∧ tx.type = "sell" then [mkLot tx] else []) := by
  by_cases h : t = tx.yahooTicker
  · subst h
    rw [sellsOf, findPos_insertTx_self]
    cases hf : findPos ps tx.yahooTicker with
    | none => simp [sellsOf, hf, sells_applyTx, newPosition]
    | some p => simp [sellsOf, hf, sells_applyTx]
  · have h' : ¬ (tx.yahooTicker = t ∧ tx.type = "sell") := fun hc => h hc.1.symm
    rw [sellsOf, findPos_insertTx_ne ps tx t h]
    simp [sellsOf, h']

lemma qtyOf_foldl (txs : List Tx) (ps : List Position) (t : String) :
    qtyOf (txs.foldl insertTx ps) t = qtyOf ps t + netDelta txs t := by
  induction txs generalizing ps with
  | nil => simp [netDelta]
  | cons tx rest ih =>
      rw [List.foldl_cons, ih, qtyOf_insertTx]
      simp [netDelta, add_assoc]

lemma buysOf_foldl (txs : List Tx) (ps : List Position) (t : String) :
    buysOf (txs.foldl insertTx ps) t = buysOf ps t ++ buyLots txs t := by
  induction txs generalizing ps with
  | nil => simp [buyLots]
  | cons tx rest ih =>
      rw [List.foldl_cons, ih, buysOf_insertTx]
      by_cases h : tx.yahooTicker = t ∧ tx.type = "buy" <;>
        simp [buyLots, List.filter_cons, h, List.append_assoc]

lemma sellsOf_foldl (txs : List Tx) (ps : List Position) (t : String) :
    sellsOf (txs.foldl insertTx ps) t = sellsOf ps t ++ sellLots txs t := by
  induction txs generalizing ps with
  | nil => simp [sellLots]
  | cons tx rest ih =>
      rw [List.foldl_cons, ih, sellsOf_insertTx]
      by_cases h : tx.yahooTicker = t ∧ tx.type = "sell" <;>
        simp [sellLots, List.filter_cons, h, List.append_assoc]

lemma qtyOf_calculatePositions (txs : List Tx) (t : String) :
    qtyOf (calculatePositions txs) t = netDelta txs t := by
  rw [calculatePositions, qtyOf_foldl]
  simp [qtyOf, findPos]

lemma buysOf_calculatePositions (txs : List Tx) (t : String) :
    buysOf (calculatePositions txs) t = buyLots txs t := by
  rw [calculatePositions, buysOf_foldl]
  simp [buysOf, findPos]

lemma sellsOf_calculatePositions (txs : List Tx) (t : String) :
    sellsOf (calculatePositions txs) t = sellLots txs t := by
  rw [calculatePositions, sellsOf_foldl]
  simp [sellsOf, findPos]

lemma buyQtySum_cons (tx : Tx) (rest : List Tx) (t : String) :
    buyQtySum (tx :: rest) t =
      (if tx.yahooTicker = t ∧ tx.type = "buy" then tx.quantity else 0) +
        buyQtySum rest t := by
  by_cases h : tx.yahooTicker = t ∧ tx.type = "buy" <;>
    simp [buyQtySum, List.filter_cons, h]

lemma sellQtySum_cons (tx : Tx) (rest : List Tx) (t : String) :
    sellQtySum (tx :: rest) t =
      (if tx.yahooTicker = t ∧ tx.type = "sell" then tx.quantity else 0) +
        sellQtySum rest t := by
  by_cases h : tx.yahooTicker = t ∧ tx.type = "sell" <;>
    simp [sellQtySum, List.filter_cons, h]

lemma txDelta_eq (tx : Tx) (t : String) :
    txDelta tx t =
      (if tx.yahooTicker = t ∧ tx.type = "buy" then tx.quantity else 0) -
        (if tx.yahooTicker = t ∧ tx.type = "sell" then tx.quantity else 0) := by
  by_cases ht : tx.yahooTicker = t
  · by_cases hb : tx.type = "buy"
    · have hs : ¬ tx.type = "sell" := by simp [hb]
      simp [txDelta, ht, hb, hs]
    · by_cases hs : tx.type = "sell" <;> simp [txDelta, ht, hb, hs]
  · simp [txDelta, ht]

lemma netDelta_eq_buy_sub_sell (txs : List Tx) (t : String) :
    netDelta txs t = buyQtySum txs t - sellQtySum txs t := by
  induction txs with
  | nil => simp [netDelta, buyQtySum, sellQtySum]
  | cons tx rest ih =>
      have hc : netDelta (tx :: rest) t = txDelta tx t + netDelta rest t := by
        simp [netDelta]
      rw [hc, buyQtySum_cons, sellQtySum_cons, ih, txDelta_eq]
      ring

lemma findPos_isSome_insertTx (ps : List Position) (tx : Tx) (t : String) :
    (findPos (insertTx ps tx) t).isSome ↔
      (findPos ps t).isSome ∨ t = tx.yahooTicker := by
  by_cases h : t = tx.yahooTicker
  · subst h
    simp [findPos_insertTx_self]
  · rw [findPos_insertTx_ne ps tx t h]
    simp [h]

lemma findPos_isSome_foldl (txs : List Tx) (ps : List Position) (t : String) :
    (findPos (txs.foldl insertTx ps) t).isSome ↔
      (findPos ps t).isSome ∨ t ∈ txs.map Tx.yahooTicker := by
  induction txs generalizing ps with
  | nil => simp
  | cons tx rest ih =>
      rw [List.foldl_cons, ih, findPos_isSome_insertTx]
      simp [or_assoc]

lemma findPos_isSome_calculatePositions (txs : List Tx) (t : String) :
    (findPos (calculatePositions txs) t).isSome ↔ t ∈ txs.map Tx.yahooTicker := by
  rw [calculatePositions, findPos_isSome_foldl]
  simp [findPos]

lemma ticker_of_findPos {ps : List Position} {t : String} {p : Position}
    (h : findPos ps t = some p) : p.ticker = t := by
  have := List.find?_some h
  simpa using this

lemma ticker_mem_insertTx (ps : List Position) (tx : Tx) :
    ∀ p ∈ insertTx ps tx,
      p.ticker ∈ ps.map Position.ticker ∨ p.ticker = tx.yahooTicker := by
  induction ps with
  | nil =>
      intro p hp
      simp only [insertTx, List.mem_singleton] at hp
      subst hp
      right
      rw [ticker_applyTx]
      rfl
  | cons q ps ih =>
      intro p hp
      by_cases h : q.ticker = tx.yahooTicker
      · simp only [insertTx, h, if_true, ite_true] at hp
        rcases List.mem_cons.mp hp with rfl | hp'
        · left
          simp [ticker_applyTx]
        · left
          simp only [List.map_cons, List.mem_cons]
          right
          exact List.mem_map_of_mem _ hp'
      · simp only [insertTx, h, if_false, ite_false] at hp
        rcases List.mem_cons.mp hp with rfl | hp'
        · left
          simp
        · rcases ih p hp' with h' | h'
          · left
            simp only [List.map_cons, List.mem_cons]
            exact Or.inr h'
          · right
            exact h'

lemma ticker_mem_foldl (txs : List Tx) (ps : List Position) :
    ∀ p ∈ txs.foldl insertTx ps,
      p.ticker ∈ ps.map Position.ticker ∨ p.ticker ∈ txs.map Tx.yahooTicker := by
  induction txs generalizing ps with
  | nil =>
      intro p hp
      left
      exact List.mem_map_of_mem _ hp
  | cons tx rest ih =>
      intro p hp
      rcases ih (insertTx ps tx) p hp with h | h
      · rcases List.mem_map.mp h with ⟨q, hq, hqt⟩
        rcases ticker_mem_insertTx ps tx q hq with h' | h'
        · left
          exact hqt ▸ h'
        · right
          rw [← hqt, h']
          simp
      · right
        simp [h]

lemma ticker_mem_calculatePositions (txs : List Tx) :
    ∀ p ∈ calculatePositions txs, p.ticker ∈ txs.map Tx.yahooTicker := by
  intro p hp
  rcases ticker_mem_foldl txs [] p hp with h | h
  · simp at h
  · exact h

/-! Claim theorems -/

/-- C1: on the two-transaction sequence (buy AAA 10 for totalEur 1020, sell
AAA 10 with eurValue 480 and totalCosts 2) the pipeline classifies AAA as
closed (final running quantity 0, one sell lot, not in the open output) and
the closed valuation record has avgBuyPrice 102, avgSellPrice 48, traded
quantity 10 and realizedPL (48 − 102) · 10 − 2 = −542. -/
theorem claim_C1_closed_example :
    qtyOf (calculatePositions [buyAAA, sellAAA]) "AAA" = 0 ∧
    (sellsOf (calculatePositions [buyAAA, sellAAA]) "AAA").length = 1 ∧
    openPositions (calculatePositions [buyAAA, sellAAA]) = [] ∧
    List.map closedValuation (closedPositions (calculatePositions [buyAAA, sellAAA])) =
      [{ ticker := "AAA", name := "AAA Corp", quantityTraded := 10,
         avgBuyPrice := 102, avgSellPrice := 48, totalCosts := 4,
         realizedPL := -542 }] ∧
    (-542 : ℚ) = (48 - 102) * 10 - 2 := by
  refine ⟨?_, ?_, ?_, ?_, by norm_num⟩ <;>
  · simp +decide only [calculatePositions, insertTx, applyTx, newPosition, mkLot,
      buyAAA, sellAAA, qtyOf, sellsOf, findPos, List.find?, openPositions,
      closedPositions, isOpen, isClosed, List.filter, List.foldl, List.map,
      List.sum]
    try norm_num [closedValuation, calculateAvgBuyPrice, calculateAvgSellPrice,
      calculateTotalCosts]

/-- C2: for every transaction sequence and every ticker appearing in it, the
aggregated position exists and its final running quantity is the sum of that
ticker's buy quantities minus the sum of its sell quantities. -/
theorem claim_C2_quantity_conservation (txs : List Tx) (t : String)
    (h : t ∈ txs.map Tx.yahooTicker) :
    ∃ p, findPos (calculatePositions txs) t = some p ∧
      p.currentQuantity = buyQtySum txs t - sellQtySum txs t := by
  have hs := (findPos_isSome_calculatePositions txs t).mpr h
  rcases Option.isSome_iff_exists.mp hs with ⟨p, hp⟩
  refine ⟨p, hp, ?_⟩
  have hq := qtyOf_calculatePositions txs t
  rw [qtyOf, hp] at hq
  simpa [netDelta_eq_buy_sub_sell] using hq

/-- Witness for C2 on the concrete AAA example: 10 bought − 10 sold = 0. -/
theorem claim_C2_witness :
    ∃ p, findPos (calculatePositions [buyAAA, sellAAA]) "AAA" = some p ∧
      p.currentQuantity =
        buyQtySum [buyAAA, sellAAA] "AAA" - sellQtySum [buyAAA, sellAAA] "AAA" :=
  claim_C2_quantity_conservation [buyAAA, sellAAA] "AAA" (by decide)

/-- C3: over the aggregated positions of any transaction sequence, the open
output is exactly the positions with positive final quantity, the closed
output exactly those with non-positive quantity and at least one sell lot,
a position with zero quantity and no sell lots is in neither, the two
outputs are disjoint, and every classified ticker was seen in the input. -/
theorem claim_C3_classification_partition (txs : List Tx) :
    (∀ p, p ∈ openPositions (calculatePositions txs) ↔
        p ∈ calculatePositions txs ∧ 0 < p.currentQuantity) ∧
    (∀ p, p ∈ closedPositions (calculatePositions txs) ↔
        p ∈ calculatePositions txs ∧ p.currentQuantity ≤ 0 ∧ 0 < p.sells.length) ∧
    (∀ p ∈ calculatePositions txs, p.currentQuantity = 0 → p.sells = [] →
        p ∉ openPositions (calculatePositions txs) ∧
        p ∉ closedPositions (calculatePositions txs)) ∧
    (∀ p, ¬ (p ∈ openPositions (calculatePositions txs) ∧
             p ∈ closedPositions (calculatePositions txs))) ∧
    (∀ p, p ∈ openPositions (calculatePositions txs) ∨
          p ∈ closedPositions (calculatePositions txs) →
        p.ticker ∈ txs.map Tx.yahooTicker) := by
  refine ⟨?_, ?_, ?_, ?_, ?_⟩
  · intro p
    simp [openPositions, List.mem_filter, isOpen]
  · intro p
    simp [closedPositions, List.mem_filter, isClosed, not_lt]
  · intro p _ hq hsl
    constructor
    · intro hmem
      have := (List.mem_filter.mp hmem).2
      simp [isOpen, hq] at this
    · intro hmem
      have := (List.mem_filter.mp hmem).2
      simp [isClosed, hsl] at this
  · rintro p ⟨ho, hc⟩
    have h1 := (List.mem_filter.mp ho).2
    have h2 := (List.mem_filter.mp hc).2
    simp [isOpen] at h1
    simp [isClosed, not_lt] at h2
    exact absurd h1 (not_lt.mpr h2.1)
  · intro p hp
    rcases hp with h | h
    · exact ticker_mem_calculatePositions txs p (List.mem_filter.mp h).1
    · exact ticker_mem_calculatePositions txs p (List.mem_filter.mp h).1

/-- Witness for C3 on the AAA example: the closed AAA position is in the
closed output, is not in the open output, and its ticker was seen. -/
theorem claim_C3_witness :
    ∃ p, p ∈ closedPositions (calculatePositions [buyAAA, sellAAA]) ∧
      p ∈ calculatePositions [buyAAA, sellAAA] ∧ p.currentQuantity ≤ 0 ∧
      0 < p.sells.length ∧
      ¬ (p ∈ openPositions (calculatePositions [buyAAA, sellAAA]) ∧
         p ∈ closedPositions (calculatePositions [buyAAA, sellAAA])) ∧
      p.ticker ∈ ([buyAAA, sellAAA] : List Tx).map Tx.yahooTicker := by
  have h := claim_C3_classification_partition [buyAAA, sellAAA]
  have hmem : ∃ p, p ∈ closedPositions (calculatePositions [buyAAA, sellAAA]) := by
    simp +decide only [calculatePositions, insertTx, applyTx, newPosition, mkLot,
      buyAAA, sellAAA, closedPositions, isClosed, List.filter, List.foldl]
    norm_num
  rcases hmem with ⟨p, hp⟩
  exact ⟨p, hp, ((h.2.1 p).mp hp).1, ((h.2.1 p).mp hp).2.1, ((h.2.1 p).mp hp).2.2,
    h.2.2.2.1 p, h.2.2.2.2 p (Or.inr hp)⟩

/-- C8: a transaction whose kind is neither buy nor sell changes no
position's running quantity, buy lots or sell lots, both as a single
aggregation step and in the sense that dropping it from the sequence leaves
every ticker's observed quantity and lots unchanged. -/
theorem claim_C8_unrecognized_kind_noop (pre post : List Tx) (tx : Tx)
    (hb : tx.type ≠ "buy") (hs : tx.type ≠ "sell") :
    (∀ ps t, qtyOf (insertTx ps tx) t = qtyOf ps t ∧
             buysOf (insertTx ps tx) t = buysOf ps t ∧
             sellsOf (insertTx ps tx) t = sellsOf ps t) ∧
    (∀ t, qtyOf (calculatePositions (pre ++ tx :: post)) t =
            qtyOf (calculatePositions (pre ++ post)) t ∧
          buysOf (calculatePositions (pre ++ tx :: post)) t =
            buysOf (calculatePositions (pre ++ post)) t ∧
          sellsOf (calculatePositions (pre ++ tx :: post)) t =
            sellsOf (calculatePositions (pre ++ post)) t) := by
  have hdelta : ∀ t, txDelta tx t = 0 := by
    intro t
    simp [txDelta, hb, hs]
  have hnb : ∀ t, ¬ (tx.yahooTicker = t ∧ tx.type = "buy") := fun t hc => hb hc.2
  have hns : ∀ t, ¬ (tx.yahooTicker = t ∧ tx.type = "sell") := fun t hc => hs hc.2
  constructor
  · intro ps t
    refine ⟨?_, ?_, ?_⟩
    · rw [qtyOf_insertTx, hdelta, add_zero]
    · rw [buysOf_insertTx, if_neg (hnb t), List.append_nil]
    · rw [sellsOf_insertTx, if_neg (hns t), List.append_nil]
  · intro t
    refine ⟨?_, ?_, ?_⟩
    · rw [qtyOf_calculatePositions, qtyOf_calculatePositions]
      simp [netDelta, hdelta t]
    · rw [buysOf_calculatePositions, buysOf_calculatePositions]
      simp [buyLots, List.filter_append, List.filter_cons, hnb t]
    · rw [sellsOf_calculatePositions, sellsOf_calculatePositions]
      simp [sellLots, List.filter_append, List.filter_cons, hns t]

/-- Witness for C8: a dividend transaction between the AAA buy and sell
changes nothing observable for ticker AAA. -/
theorem claim_C8_witness :
    qtyOf (calculatePositions ([buyAAA] ++ dividendAAA :: [sellAAA])) "AAA" =
      qtyOf (calculatePositions ([buyAAA] ++ [sellAAA])) "AAA" ∧
    buysOf (calculatePositions ([buyAAA] ++ dividendAAA :: [sellAAA])) "AAA" =
      buysOf (calculatePositions ([buyAAA] ++ [sellAAA])) "AAA" ∧
    sellsOf (calculatePositions ([buyAAA] ++ dividendAAA :: [sellAAA])) "AAA" =
      sellsOf (calculatePositions ([buyAAA] ++ [sellAAA])) "AAA" :=
  (claim_C8_unrecognized_kind_noop [buyAAA] [sellAAA] dividendAAA
    (by decide) (by decide)).2 "AAA"

/-- C9: every ticker appearing in the transaction sequence gets a position
entry, even one all of whose transactions have an unrecognized kind; in
that case the position has no lots and quantity 0 and is classified
neither open nor closed. -/
theorem claim_C9_entry_for_every_ticker (txs : List Tx) (t : String)
    (h : t ∈ txs.map Tx.yahooTicker) :
    ∃ p, findPos (calculatePositions txs) t = some p ∧ p.ticker = t ∧
      ((∀ tx ∈ txs, tx.yahooTicker = t → tx.type ≠ "buy" ∧ tx.type ≠ "sell") →
        p.buys = [] ∧ p.sells = [] ∧ p.currentQuantity = 0 ∧
          p ∉ openPositions (calculatePositions txs) ∧
          p ∉ closedPositions (calculatePositions txs)) := by
  have hsome := (findPos_isSome_calculatePositions txs t).mpr h
  rcases Option.isSome_iff_exists.mp hsome with ⟨p, hp⟩
  refine ⟨p, hp, ticker_of_findPos hp, ?_⟩
  intro hall
  have hbuys : p.buys = [] := by
    have hb := buysOf_calculatePositions txs t
    rw [buysOf, hp] at hb
    simp only [Option.map_some', Option.getD_some] at hb
    rw [hb, buyLots, List.filter_eq_nil_iff.mpr, List.map_nil]
    intro tx htx
    simp only [decide_eq_true_eq, not_and]
    intro hticker
    exact (hall tx htx hticker).1
  have hsells : p.sells = [] := by
    have hs := sellsOf_calculatePositions txs t
    rw [sellsOf, hp] at hs
    simp only [Option.map_some', Option.getD_some] at hs
    rw [hs, sellLots, List.filter_eq_nil_iff.mpr, List.map_nil]
    intro tx htx
    simp only [decide_eq_true_eq, not_and]
    intro hticker
    exact (hall tx htx hticker).2
  have hqty : p.currentQuantity = 0 := by
    have hq := qtyOf_calculatePositions txs t
    rw [qtyOf, hp] at hq
    simp only [Option.map_some', Option.getD_some] at hq
    rw [hq, netDelta, List.sum_eq_zero, ]
    intro x hx
    rcases List.mem_map.mp hx with ⟨tx, htx, rfl⟩
    by_cases hticker : tx.yahooTicker = t
    · simp [txDelta, hticker, (hall tx htx hticker).1, (hall tx htx hticker).2]
    · simp [txDelta, hticker]
  refine ⟨hbuys, hsells, hqty, ?_, ?_⟩
  · intro hmem
    have := (List.mem_filter.mp hmem).2
    simp [isOpen, hqty] at this
  · intro hmem
    have := (List.mem_filter.mp hmem).2
    simp [isClosed, hsells] at this

/-- Witness for C9: a ticker whose only transaction is a dividend gets an
empty position that is neither open nor closed. -/
theorem claim_C9_witness :
    ∃ p, findPos (calculatePositions [dividendAAA]) "AAA" = some p ∧
      p.ticker = "AAA" ∧ p.buys = [] ∧ p.sells = [] ∧ p.currentQuantity = 0 ∧
      p ∉ openPositions (calculatePositions [dividendAAA]) ∧
      p ∉ closedPositions (calculatePositions [dividendAAA]) := by
  rcases claim_C9_entry_for_every_ticker [dividendAAA] "AAA" (by decide) with
    ⟨p, h1, h2, h3⟩
  rcases h3 (by decide) with ⟨hb, hs, hq, ho, hc⟩
  exact ⟨p, h1, h2, hb, hs, hq, ho, hc⟩

/-- C4: the empty transaction sequence is the one input on which the
pipeline signals a hard error (and yields no records); every non-empty
sequence yields a normal result, and a non-empty sequence with no open
positions yields a valid empty open output, not an error. -/
theorem claim_C4_empty_input_error (sp : String → Option ℚ) (r : Rates) :
    pipeline sp r [] = Except.error "No transactions found" ∧
    (∀ txs : List Tx, txs ≠ [] → ∃ res, pipeline sp r txs = Except.ok res) ∧
    (∃ txs : List Tx, txs ≠ [] ∧
      ∃ cd, pipeline sp r txs = Except.ok ([], cd)) := by
  refine ⟨rfl, ?_, ?_⟩
  · intro txs hne
    refine ⟨(fillPortfolioPercent
        (List.map (openValuation sp r) (openPositions (calculatePositions txs))),
      List.map closedValuation (closedPositions (calculatePositions txs))), ?_⟩
    rw [pipeline, if_neg (by simpa using hne)]
  · refine ⟨[sellAAA], by simp,
      List.map closedValuation (closedPositions (calculatePositions [sellAAA])), ?_⟩
    rw [pipeline, if_neg (by simp)]
    have hopen : openPositions (calculatePositions [sellAAA]) = [] := by
      simp +decide only [calculatePositions, insertTx, applyTx, newPosition,
        mkLot, sellAAA, openPositions, isOpen, List.filter, List.foldl]
      norm_num
    show Except.ok (fillPortfolioPercent
        (List.map (openValuation sp r) (openPositions (calculatePositions [sellAAA]))),
      List.map closedValuation (closedPositions (calculatePositions [sellAAA]))) =
      (Except.ok ([],
        List.map closedValuation (closedPositions (calculatePositions [sellAAA])))
        : Except String (List OpenData × List ClosedData))
    rw [hopen]
    rfl

/-- Witness for C4: a concrete non-empty sell-only input produces a normal
(ok) result. -/
theorem claim_C4_witness :
    ∃ res, pipeline (fun _ => none) [] [sellAAA] = Except.ok res :=
  ((claim_C4_empty_input_error (fun _ => none) []).2.1 [sellAAA] (by simp))

/-- C5: for every open-position valuation, `plPercent` is null whenever
`invested` is 0, and it is `(pl / invested) * 100` only when `pl` is known
and `invested` is positive — the division is guarded. -/
theorem claim_C5_plPercent_guard (sp : String → Option ℚ) (r : Rates)
    (pos : Position) :
    (investedOf pos = 0 → (openValuation sp r pos).plPercent = none) ∧
    (∀ v, (openValuation sp r pos).plPercent = some v →
      ∃ plv, (openValuation sp r pos).pl = some plv ∧ 0 < investedOf pos ∧
        v = (plv / investedOf pos) * 100) := by
  cases hc : convertToEUR (sp pos.ticker) (getCurrencyFromTicker pos.ticker) r with
  | none =>
      constructor
      · intro _
        simp [openValuation, hc]
      · intro v hv
        simp [openValuation, hc] at hv
  | some c =>
      by_cases hinv : 0 < calculateAvgBuyPrice pos.buys * pos.currentQuantity
      · constructor
        · intro h0
          rw [investedOf] at h0
          rw [h0] at hinv
          exact absurd hinv (lt_irrefl 0)
        · intro v hv
          simp only [openValuation, hc, if_pos hinv] at hv
          refine ⟨c * pos.currentQuantity -
            calculateAvgBuyPrice pos.buys * pos.currentQuantity, ?_, hinv, ?_⟩
          · simp [openValuation, hc]
          · rw [investedOf]
            injection hv with hinj
            exact hinj.symm
      · constructor
        · intro _
          simp [openValuation, hc, hinv]
        · intro v hv
          simp [openValuation, hc, hinv] at hv

/-- Witness for C5: a position with no buy lots has `invested = 0` and its
`plPercent` is null. -/
theorem claim_C5_witness :
    (openValuation (fun _ => none) [] (newPosition dividendAAA)).plPercent =
      none :=
  (claim_C5_plPercent_guard (fun _ => none) [] (newPosition dividendAAA)).1
    (by norm_num [investedOf, calculateAvgBuyPrice, newPosition])

/-- C6: a null price converts to null for every currency code and every
rate table. -/
theorem claim_C6_null_price_propagates (c : String) (r : Rates) :
    convertToEUR none c r = none := rfl

/-- C7: when the uppercased currency code is the reporting currency EUR,
conversion returns the price unchanged, hence repeated conversion is the
identity as well. -/
theorem claim_C7_reporting_currency_identity (x : ℚ) (c : String) (r : Rates)
    (h : jsToUpperCase c = "EUR") :
    convertToEUR (some x) c r = some x ∧
    convertToEUR (convertToEUR (some x) c r) c r = some x := by
  have hgbx : ¬ c = "GBX" := by
    intro hc
    rw [hc] at h
    exact absurd h (by decide)
  have h1 : convertToEUR (some x) c r = some x := by
    simp +decide [convertToEUR, hgbx, h]
  exact ⟨h1, by rw [h1, h1]⟩

/-- Witness for C7: converting 5 with code `eur` (uppercased to EUR)
returns 5 under the empty rate table. -/
theorem claim_C7_witness :
    convertToEUR (some 5) "eur" [] = some 5 ∧
    convertToEUR (convertToEUR (some 5) "eur" []) "eur" [] = some 5 :=
  claim_C7_reporting_currency_identity 5 "eur" [] (by decide)

lemma lookup_eq_none_of_not_mem_keys {k : String} :
    ∀ {r : Rates}, (∀ kv ∈ r, kv.1 ≠ k) → List.lookup k r = none
  | [], _ => rfl
  | (k1, v1) :: rest, h => by
      have hne : (k == k1) = false :=
        beq_eq_false_iff_ne.mpr fun hc => h (k1, v1) (by simp) hc.symm
      simp only [List.lookup, hne]
      exact lookup_eq_none_of_not_mem_keys fun kv hkv => h kv (by simp [hkv])

/-- C10: the minor-unit test is the exact string `GBX` before uppercasing:
with a rate table keyed among EUR/GBP/USD/SEK/PLN, a `GBX` price is divided
by 100 and multiplied by `rates.GBP` (1.17 when GBP is absent or zero),
while a lowercase `gbx` price skips that branch, uppercases to `GBX`, finds
no rate entry, and is returned unchanged. -/
theorem claim_C10_gbx_minor_unit (p : ℚ) (r : Rates)
    (hk : ∀ kv ∈ r, kv.1 ∈ (["EUR", "GBP", "USD", "SEK", "PLN"] : List String)) :
    convertToEUR (some p) "GBX" r = some ((p / 100) * rateOr r "GBP" (117 / 100)) ∧
    (List.lookup "GBP" r = none ∨ List.lookup "GBP" r = some 0 →
      convertToEUR (some p) "GBX" r = some ((p / 100) * (117 / 100))) ∧
    (∀ g, List.lookup "GBP" r = some g → ¬ g = 0 →
      convertToEUR (some p) "GBX" r = some ((p / 100) * g)) ∧
    convertToEUR (some p) "gbx" r = some p := by
  have hGBX : List.lookup "GBX" r = none :=
    lookup_eq_none_of_not_mem_keys fun kv hkv => by
      have hmem := hk kv hkv
      intro hc
      rw [hc] at hmem
      exact absurd hmem (by decide)
  have hfirst : convertToEUR (some p) "GBX" r =
      some ((p / 100) * rateOr r "GBP" (117 / 100)) := rfl
  refine ⟨hfirst, ?_, ?_, ?_⟩
  · rintro (hnone | hzero)
    · rw [hfirst]
      simp [rateOr, hnone]
    · rw [hfirst]
      simp [rateOr, hzero]
  · intro g hg hgz
    rw [hfirst]
    simp [rateOr, hg, hgz]
  · have hup : jsToUpperCase "gbx" = "GBX" := by decide
    simp +decide [convertToEUR, hup, hGBX]

/-- Witness for C10: with a USD-only rate table, a `GBX` price of 7 uses
the 1.17 fallback and a `gbx` price of 7 passes through unchanged. -/
theorem claim_C10_witness :
    convertToEUR (some 7) "GBX" [("USD", (92 / 100 : ℚ))] =
      some ((7 / 100) * rateOr [("USD", (92 / 100 : ℚ))] "GBP" (117 / 100)) ∧
    convertToEUR (some 7) "gbx" [("USD", (92 / 100 : ℚ))] = some 7 := by
  have h := claim_C10_gbx_minor_unit 7 [("USD", (92 / 100 : ℚ))] (by decide)
  exact ⟨h.1, h.2.2.2⟩

end PortfolioTracker
